import Mathlib

/-!
Verification of the velocitydrive-web-control codec stack against its
specification.  The development shallowly embeds the three codec layers of
the repository — the CBOR value codec (src/js/cbor-encoder.js), the CoAP
message codec (src/js/coap-client.js) and the MUP1 serial framers
(src/unnamed/part_000, src/unnamed/part_001) — as executable Lean
functions over `List Nat` byte buffers, and proves or refutes the spec's
testable properties about them.

Modelling conventions, used throughout:
* a JavaScript `Uint8Array`/byte array is a `List Nat` whose elements are
  intended to be `< 256`;
* JavaScript bitwise operators on in-range operands are the `Nat`
  operators `<<<`, `>>>`, `&&&`, `|||`; where JavaScript's signed 32-bit
  coercion (`ToInt32`) is observable the embedding applies `toInt32`
  explicitly;
* an out-of-range indexed read (`data[i]` yielding `undefined`) is
  modelled by `List.get?`/`List.getD _ _ 0`: where the raw `undefined`
  value is observable it is kept (`Option`), and where it only flows into
  arithmetic (ToInt32(NaN) = 0) it is modelled as 0;
* a thrown JavaScript exception is an `Except.error` carrying the message;
* unbounded `while`/recursion uses an explicit fuel argument chosen large
  enough that the embedded runs never exhaust it.
-/

namespace VdWc

/-! ## JavaScript number helpers -/

/-- JavaScript `ToInt32`: the low 32 bits of a nonnegative integer read as a
signed (two's-complement) 32-bit value. -/
def toInt32 (n : Nat) : Int :=
  let m := n % 4294967296
  if m < 2147483648 then (m : Int) else (m : Int) - 4294967296

/-! ## Arithmetic readings of the bit operations -/

theorem lor_shl_eq_add (a b k : Nat) (hb : b < 2 ^ k) :
    (a <<< k) ||| b = a * 2 ^ k + b := by
  rw [Nat.shiftLeft_eq, Nat.mul_comm a (2 ^ k), ← Nat.mul_add_lt_is_or hb]

theorem shr_eq_div (a k : Nat) : a >>> k = a / 2 ^ k :=
  Nat.shiftRight_eq_div_pow a k

theorem shl_eq_mul (a k : Nat) : a <<< k = a * 2 ^ k :=
  Nat.shiftLeft_eq a k

theorem and_15_eq (x : Nat) : x &&& 15 = x % 16 := by
  simpa using Nat.and_pow_two_sub_one_eq_mod x 4

theorem and_3_eq (x : Nat) : x &&& 3 = x % 4 := by
  simpa using Nat.and_pow_two_sub_one_eq_mod x 2

theorem and_7_eq (x : Nat) : x &&& 7 = x % 8 := by
  simpa using Nat.and_pow_two_sub_one_eq_mod x 3

theorem and_31_eq (x : Nat) : x &&& 31 = x % 32 := by
  simpa using Nat.and_pow_two_sub_one_eq_mod x 5

theorem and_255_eq (x : Nat) : x &&& 255 = x % 256 := by
  simpa using Nat.and_pow_two_sub_one_eq_mod x 8

theorem and_65535_eq (x : Nat) : x &&& 65535 = x % 65536 := by
  simpa using Nat.and_pow_two_sub_one_eq_mod x 16

theorem shr4_eq (a : Nat) : a >>> 4 = a / 16 := by
  simpa using shr_eq_div a 4

theorem shr5_eq (a : Nat) : a >>> 5 = a / 32 := by
  simpa using shr_eq_div a 5

theorem shr6_eq (a : Nat) : a >>> 6 = a / 64 := by
  simpa using shr_eq_div a 6

theorem shr8_eq (a : Nat) : a >>> 8 = a / 256 := by
  simpa using shr_eq_div a 8

theorem shl4_eq (a : Nat) : a <<< 4 = 16 * a := by
  rw [shl_eq_mul]; omega

theorem shl8_eq (a : Nat) : a <<< 8 = 256 * a := by
  rw [shl_eq_mul]; omega

theorem lor_shl4 (a b : Nat) (hb : b < 16) : (a <<< 4) ||| b = 16 * a + b := by
  have e : (2 : Nat) ^ 4 = 16 := by norm_num
  have h := lor_shl_eq_add a b 4 (by rw [e]; exact hb)
  rw [h, e]; omega

theorem lor_shl8 (a b : Nat) (hb : b < 256) : (a <<< 8) ||| b = 256 * a + b := by
  have e : (2 : Nat) ^ 8 = 256 := by norm_num
  have h := lor_shl_eq_add a b 8 (by rw [e]; exact hb)
  rw [h, e]; omega

/-! ## CBOR codec (src/js/cbor-encoder.js, class CBOREncoder)

JavaScript values handled by `CBOREncoder.encode`/`decode`.  A JS number
that satisfies `Number.isInteger` is `vint`; a non-integral double is
`vfloat`, represented by the 8 bytes of its IEEE-754 big-endian bit
pattern (exactly what the codec reads and writes through a `DataView`).
A JS string is represented by its UTF-8 byte sequence (what
`TextEncoder`/`TextDecoder` exchange with the codec).  A decoded CBOR tag
becomes the object `\x7btag, value\x7d`, embedded as `vtagged`.  `vnan`
stands for the JS number `NaN`, which the decoder can produce from
malformed input (`-undefined - 1`). -/

inductive JSValue where
  | vbool (b : Bool)
  | vnull
  | vundef
  | vnan
  | vint (n : Int)
  | vfloat (bits : List Nat)
  | vbytes (bs : List Nat)
  | vstr (utf8 : List Nat)
  | varr (xs : List JSValue)
  | vmap (entries : List (JSValue × JSValue))
  | vtagged (tag : Int) (v : JSValue)
  deriving Repr

/-- `CBOREncoder._encodeTypeAndValue`: major type in the top 3 bits,
argument inline (<24) or in 1/2/4/8 big-endian bytes after prefix
24/25/26/27. -/
def encodeTypeAndValue (majorType v : Nat) : List Nat :=
  let t := majorType <<< 5
  if v < 24 then [t ||| v]
  else if v < 256 then [t ||| 24, v]
  else if v < 65536 then [t ||| 25, (v >>> 8) &&& 255, v &&& 255]
  else if v < 4294967296 then
    [t ||| 26, (v >>> 24) &&& 255, (v >>> 16) &&& 255, (v >>> 8) &&& 255, v &&& 255]
  else
    let high := v / 4294967296
    let low := v % 4294967296
    [t ||| 27,
     (high >>> 24) &&& 255, (high >>> 16) &&& 255, (high >>> 8) &&& 255, high &&& 255,
     (low >>> 24) &&& 255, (low >>> 16) &&& 255, (low >>> 8) &&& 255, low &&& 255]

/-- `CBOREncoder._encodeNumber` restricted to an integral JS number. -/
def encodeIntJS (n : Int) : List Nat :=
  if 0 ≤ n then encodeTypeAndValue 0 n.toNat else encodeTypeAndValue 1 (-n - 1).toNat

mutual

/-- `CBOREncoder._encodeValue` (with `_encodeNumber`, `_encodeString`,
`_encodeByteString`, `_encodeArray`, `_encodeObject` inlined).  `vnan`
is a non-integral number, hence float-encoded with the canonical JS NaN
bit pattern 0x7FF8000000000000.  A `vtagged` value is the plain object
`\x7btag, value\x7d`, which `_encodeValue` sends through `_encodeObject`:
a two-entry map with the text keys "tag" and "value". -/
def encodeValue : JSValue → List Nat
  | .vbool false => [(7 <<< 5) ||| 20]
  | .vbool true => [(7 <<< 5) ||| 21]
  | .vnull => [(7 <<< 5) ||| 22]
  | .vundef => [(7 <<< 5) ||| 23]
  | .vnan => ((7 <<< 5) ||| 27) :: [127, 248, 0, 0, 0, 0, 0, 0]
  | .vint n => encodeIntJS n
  | .vfloat bits => ((7 <<< 5) ||| 27) :: bits
  | .vstr s => encodeTypeAndValue 3 s.length ++ s
  | .vbytes b => encodeTypeAndValue 2 b.length ++ b
  | .varr xs => encodeTypeAndValue 4 xs.length ++ encodeList xs
  | .vmap es => encodeTypeAndValue 5 es.length ++ encodeEntries es
  | .vtagged t v =>
      encodeTypeAndValue 5 2 ++
        (encodeTypeAndValue 3 3 ++ [116, 97, 103]) ++ encodeIntJS t ++
        (encodeTypeAndValue 3 5 ++ [118, 97, 108, 117, 101]) ++ encodeValue v

/-- The element loop of `CBOREncoder._encodeArray`. -/
def encodeList : List JSValue → List Nat
  | [] => []
  | x :: rest => encodeValue x ++ encodeList rest

/-- The entry loop of `CBOREncoder._encodeObject`. -/
def encodeEntries : List (JSValue × JSValue) → List Nat
  | [] => []
  | (k, v) :: rest => encodeValue k ++ encodeValue v ++ encodeEntries rest

end

/-- `CBOREncoder.encode`. -/
def cborEncode (v : JSValue) : List Nat := encodeValue v

/-- `CBOREncoder._decodeUnsignedInt`.  The JS code performs no
remaining-length checks: a read past the end yields `undefined`, which is
returned raw in the additional-info-24 branch and coerced to 0 by the
bitwise operators in the 25/26/27 branches.  The 26/27 branches combine
bytes with `<<`/`|`, signed 32-bit operations, hence `toInt32`. -/
def decodeUInt (data : List Nat) (offset : Nat) : Except String (JSValue × Nat) :=
  let ai := (data.getD offset 0) &&& 31
  if ai < 24 then .ok (.vint ai, offset + 1)
  else if ai = 24 then
    match data.get? (offset + 1) with
    | some b => .ok (.vint b, offset + 2)
    | none => .ok (.vundef, offset + 2)
  else if ai = 25 then
    .ok (.vint (((data.getD (offset + 1) 0) <<< 8) ||| data.getD (offset + 2) 0), offset + 3)
  else if ai = 26 then
    .ok (.vint (toInt32 ((data.getD (offset + 1) 0) <<< 24 |||
        (data.getD (offset + 2) 0) <<< 16 ||| (data.getD (offset + 3) 0) <<< 8 |||
        data.getD (offset + 4) 0)), offset + 5)
  else if ai = 27 then
    let high := toInt32 ((data.getD (offset + 1) 0) <<< 24 |||
        (data.getD (offset + 2) 0) <<< 16 ||| (data.getD (offset + 3) 0) <<< 8 |||
        data.getD (offset + 4) 0)
    let low := toInt32 ((data.getD (offset + 5) 0) <<< 24 |||
        (data.getD (offset + 6) 0) <<< 16 ||| (data.getD (offset + 7) 0) <<< 8 |||
        data.getD (offset + 8) 0)
    .ok (.vint (high * 4294967296 + low), offset + 9)
  else .error "Invalid additional info"

/-- `CBOREncoder._decodeLength`.  Identical argument decoding, but
additional-info 31 (indefinite length) returns the sentinel value `-1`
instead of failing.  Out-of-range reads are modelled as 0 (they feed
arithmetic only; the NaN-propagating paths are not exercised by the
theorems below). -/
def decodeLength (data : List Nat) (offset : Nat) : Except String (Int × Nat) :=
  let ai := (data.getD offset 0) &&& 31
  if ai < 24 then .ok (ai, offset + 1)
  else if ai = 24 then .ok (data.getD (offset + 1) 0, offset + 2)
  else if ai = 25 then
    .ok (((data.getD (offset + 1) 0) <<< 8) ||| data.getD (offset + 2) 0, offset + 3)
  else if ai = 26 then
    .ok (toInt32 ((data.getD (offset + 1) 0) <<< 24 ||| (data.getD (offset + 2) 0) <<< 16 |||
        (data.getD (offset + 3) 0) <<< 8 ||| data.getD (offset + 4) 0), offset + 5)
  else if ai = 27 then
    let high := toInt32 ((data.getD (offset + 1) 0) <<< 24 |||
        (data.getD (offset + 2) 0) <<< 16 ||| (data.getD (offset + 3) 0) <<< 8 |||
        data.getD (offset + 4) 0)
    let low := toInt32 ((data.getD (offset + 5) 0) <<< 24 |||
        (data.getD (offset + 6) 0) <<< 16 ||| (data.getD (offset + 7) 0) <<< 8 |||
        data.getD (offset + 8) 0)
    .ok (high * 4294967296 + low, offset + 9)
  else if ai = 31 then .ok (-1, offset + 1)
  else .error "Invalid length encoding"

/-- `CBOREncoder._decodeFloatSimple`. -/
def decodeFloatSimple (data : List Nat) (offset : Nat) : Except String (JSValue × Nat) :=
  let ai := (data.getD offset 0) &&& 31
  if ai < 20 then .ok (.vint ai, offset + 1)
  else if ai = 20 then .ok (.vbool false, offset + 1)
  else if ai = 21 then .ok (.vbool true, offset + 1)
  else if ai = 22 then .ok (.vnull, offset + 1)
  else if ai = 23 then .ok (.vundef, offset + 1)
  else if ai = 27 then
    .ok (.vfloat ((List.range 8).map (fun i => data.getD (offset + 1 + i) 0)), offset + 9)
  else .error "Unsupported float or simple value"

/-- JS `Array.prototype.slice(start, end)` for `0 ≤ start` and a possibly
negative-relative `end` that stays nonnegative (the only case reached
here): clamps and yields the empty list when `end ≤ start`. -/
def jsSlice (data : List Nat) (start : Nat) (endI : Int) : List Nat :=
  (data.drop start).take (endI.toNat - start)

/-- The element loop of `CBOREncoder._decodeArray` (`count` iterations; a
negative JS count runs zero iterations, hence `Int.toNat` upstream).  The
recursive decode for each element is passed in as `dv`. -/
def decodeItems (dv : Nat → Except String (JSValue × Nat)) :
    Nat → Nat → Except String (List JSValue × Nat)
  | offset, 0 => .ok ([], offset)
  | offset, n + 1 =>
    match dv offset with
    | .error e => .error e
    | .ok (v, off) =>
      match decodeItems dv off n with
      | .error e => .error e
      | .ok (xs, off') => .ok (v :: xs, off')

/-- The entry loop of `CBOREncoder._decodeMap`.  The JS code inserts the
pairs into an object in decode order; the embedding keeps them as an
ordered pair list. -/
def decodePairs (dv : Nat → Except String (JSValue × Nat)) :
    Nat → Nat → Except String (List (JSValue × JSValue) × Nat)
  | offset, 0 => .ok ([], offset)
  | offset, n + 1 =>
    match dv offset with
    | .error e => .error e
    | .ok (k, off) =>
      match dv off with
      | .error e => .error e
      | .ok (v, off') =>
        match decodePairs dv off' n with
        | .error e => .error e
        | .ok (es, off'') => .ok ((k, v) :: es, off'')

/-- `CBOREncoder._decodeValue` (with `_decodeByteString`,
`_decodeTextString`, `_decodeArray`, `_decodeMap`, `_decodeTag` inlined).
The fuel argument only bounds container-nesting depth; the embedded runs
never exhaust it (`cborDecode` passes `length + 1`, an upper bound on the
nesting depth of any parse). -/
def decodeVal : Nat → List Nat → Nat → Except String (JSValue × Nat)
  | 0, _, _ => .error "fuel exhausted"
  | fuel + 1, data, offset =>
    if offset ≥ data.length then .error "Unexpected end of CBOR data"
    else
      let mt := ((data.getD offset 0) >>> 5) &&& 7
      if mt = 0 then decodeUInt data offset
      else if mt = 1 then
        match decodeUInt data offset with
        | .ok (.vint v, off) => .ok (.vint (-v - 1), off)
        | .ok (_, off) => .ok (.vnan, off)
        | .error e => .error e
      else if mt = 2 then
        match decodeLength data offset with
        | .error e => .error e
        | .ok (len, start) =>
          let endI : Int := (start : Int) + len
          if endI > (data.length : Int) then .error "Byte string extends beyond data"
          else .ok (.vbytes (jsSlice data start endI), endI.toNat)
      else if mt = 3 then
        match decodeLength data offset with
        | .error e => .error e
        | .ok (len, start) =>
          let endI : Int := (start : Int) + len
          if endI > (data.length : Int) then .error "Text string extends beyond data"
          else .ok (.vstr (jsSlice data start endI), endI.toNat)
      else if mt = 4 then
        match decodeLength data offset with
        | .error e => .error e
        | .ok (len, off) =>
          match decodeItems (decodeVal fuel data) off len.toNat with
          | .error e => .error e
          | .ok (xs, off') => .ok (.varr xs, off')
      else if mt = 5 then
        match decodeLength data offset with
        | .error e => .error e
        | .ok (len, off) =>
          match decodePairs (decodeVal fuel data) off len.toNat with
          | .error e => .error e
          | .ok (es, off') => .ok (.vmap es, off')
      else if mt = 6 then
        match decodeLength data offset with
        | .error e => .error e
        | .ok (tagv, off) =>
          match decodeVal fuel data off with
          | .error e => .error e
          | .ok (v, off') => .ok (.vtagged tagv v, off')
      else decodeFloatSimple data offset

/-- `CBOREncoder.decode`. -/
def cborDecode (bytes : List Nat) : Except String JSValue :=
  match decodeVal (bytes.length + 1) bytes 0 with
  | .ok (v, _) => .ok v
  | .error e => .error e

/-- Claim C1: the spec demands `cborDecode(cborEncode(v)) == v` exactly for
every representable CBOR value.  The code breaks this for the unsigned
integer 2147483648 = 2^31: `_encodeTypeAndValue` emits the 4-byte argument
`1A 80 00 00 00`, but `_decodeUnsignedInt` reassembles the argument with
JavaScript's signed 32-bit `<<`/`|` operators, so the decoder returns
-2147483648 instead of 2147483648. -/
theorem c1_cbor_decode_encode_failure :
    cborDecode (cborEncode (JSValue.vint 2147483648)) =
      .ok (JSValue.vint (-2147483648)) ∧
    (2147483648 : Int) ≠ -2147483648 :=
  ⟨rfl, by decide⟩

/-- Claim C5: the spec demands that decoding an item whose initial byte
carries additional-info 31 (indefinite length) fails with
`UnsupportedIndefiniteLength`.  The code instead has `_decodeLength`
return the sentinel length -1, which makes `_decodeArray` run zero
iterations: decoding the single byte 0x9F (indefinite-length array head)
silently succeeds with the empty array. -/
theorem c5_indefinite_length_not_rejected :
    cborDecode [0x9F] = .ok (JSValue.varr []) :=
  rfl

/-- Claim C6: the spec demands a remaining-byte check before every
multi-byte read, failing with `TruncatedInput` otherwise.  The code has no
such checks in `_decodeUnsignedInt`: decoding the single byte 0x19
(unsigned int, additional-info 25, with both argument bytes missing) reads
`undefined` past the end, which the bitwise operators coerce to 0, so the
decode silently succeeds with the value 0; likewise 0x18 with its one
argument byte missing succeeds with the JS value `undefined`. -/
theorem c6_truncated_input_not_rejected :
    cborDecode [0x19] = .ok (JSValue.vint 0) ∧
    cborDecode [0x18] = .ok JSValue.vundef :=
  ⟨rfl, rfl⟩

/-! ## CoAP codec (src/js/coap-client.js, class CoAPClient)

`createMessage` generates the message id and token from mutable session
state (`this.messageId++`, `generateToken()` — a 4-byte random token); the
embedding passes both explicitly, as the spec's design notes prescribe.
An option value is a JS string (embedded by its UTF-8 bytes), a JS number
(encoded by `encodeNumber`), or a raw byte array. -/

inductive OptValue where
  | str (utf8 : List Nat)
  | num (n : Nat)
  | raw (bytes : List Nat)
  deriving Repr, DecidableEq

/-- `CoAPClient.encodeNumber`: 0/1/2/4-byte big-endian encoding. -/
def encodeNumber (n : Nat) : List Nat :=
  if n = 0 then []
  else if n < 256 then [n]
  else if n < 65536 then [n >>> 8, n &&& 255]
  else [n >>> 24, (n >>> 16) &&& 255, (n >>> 8) &&& 255, n &&& 255]

/-- The option-value conversion inside `CoAPClient.encodeOptions`. -/
def optValueBytes : OptValue → List Nat
  | .str s => s
  | .num n => encodeNumber n
  | .raw b => b

/-- The option-header emission inside the `encodeOptions` loop: nibble
value for `delta`/`length` below 13, nibble 13 plus one extra byte for
13..268, nibble 14 plus two extra bytes for 269 and up, extended delta
bytes before extended length bytes. -/
def encodeOptHeader (delta len : Nat) : List Nat :=
  if delta < 13 ∧ len < 13 then [(delta <<< 4) ||| len]
  else
    let lenNibble := if len < 13 then len else if len < 269 then 13 else 14
    let deltaPart : List Nat :=
      if delta < 13 then []
      else if delta < 269 then [(13 <<< 4) ||| lenNibble, delta - 13]
      else [(14 <<< 4) ||| lenNibble, (delta - 269) >>> 8, (delta - 269) &&& 255]
    let lenPart : List Nat :=
      if delta < 13 then
        if len < 13 then [(delta <<< 4) ||| len]
        else if len < 269 then [(delta <<< 4) ||| 13, len - 13]
        else [(delta <<< 4) ||| 14, (len - 269) >>> 8, (len - 269) &&& 255]
      else if len ≥ 269 then [(len - 269) >>> 8, (len - 269) &&& 255]
      else if len ≥ 13 then [len - 13]
      else []
    deltaPart ++ lenPart

/-- The per-option loop of `CoAPClient.encodeOptions`, carrying
`lastOptionNumber`. -/
def encodeOptionsGo : Nat → List (Nat × OptValue) → List Nat
  | _, [] => []
  | last, (n, v) :: rest =>
    let vb := optValueBytes v
    encodeOptHeader (n - last) vb.length ++ vb ++ encodeOptionsGo n rest

/-- `CoAPClient.encodeOptions`: sort ascending by option number (JS
`Array.prototype.sort` with comparator `a.number - b.number`, a stable
sort, embedded as `insertionSort`), then delta-encode. -/
def encodeOptions (opts : List (Nat × OptValue)) : List Nat :=
  encodeOptionsGo 0 (List.insertionSort (fun a b => a.1 ≤ b.1) opts)

/-- `CoAPClient.createMessage`, with message id and token passed
explicitly in place of the session state, and the options map split into
its non-payload entries and the `payload` entry (`some p` is a truthy
payload with byte content `p`). -/
def createMessage (type code messageId : Nat) (token : List Nat)
    (opts : List (Nat × OptValue)) (payload : Option (List Nat)) : List Nat :=
  let byte0 := (1 <<< 6) ||| (type <<< 4) ||| token.length
  [byte0, code, (messageId >>> 8) &&& 255, messageId &&& 255] ++ token ++
    encodeOptions opts ++
    (match payload with
     | some p => 0xFF :: p
     | none => [])

/-- One step of reading an extended option delta or length in
`CoAPClient.parseOptions` (`13 + next byte`, or `269 + next two bytes
big-endian`), returning the value and the remaining bytes. -/
def readExt (nibble : Nat) (l : List Nat) : Nat × List Nat :=
  if nibble = 13 then (13 + l.getD 0 0, l.drop 1)
  else if nibble = 14 then (269 + ((l.getD 0 0) <<< 8) + l.getD 1 0, l.drop 2)
  else (nibble, l)

/-- `CoAPClient.parseOptions`, consuming the byte suffix after the token.
Returns the options as an ordered `(optionNumber, valueBytes)` list (the
JS code groups them into an object keyed by `getOptionName`; the flat
list keeps the same information and order) together with the unconsumed
suffix.  Out-of-range reads inside extended fields are modelled as 0 (the
round-trip theorem only reaches in-range reads).  The fuel counts loop
iterations; each iteration consumes at least the header byte, so
`bytes.length` iterations always suffice. -/
def parseOptionsGo (fuel cur : Nat) (bytes : List Nat) :
    List (Nat × List Nat) × List Nat :=
  match fuel, bytes with
  | _, [] => ([], [])
  | 0, rest => ([], rest)
  | fuel + 1, b :: rest =>
    if b = 0xFF then ([], b :: rest)
    else
      let d0 := (b >>> 4) &&& 15
      let l0 := b &&& 15
      if d0 = 15 then ([], rest)
      else
        let dr := readExt d0 rest
        if l0 = 15 then ([], dr.2)
        else
          let lr := readExt l0 dr.2
          let n := cur + dr.1
          let v := lr.2.take lr.1
          let r := parseOptionsGo fuel n (lr.2.drop lr.1)
          ((n, v) :: r.1, r.2)

/-- The result object of `CoAPClient.parseMessage`. -/
structure ParsedCoap where
  version : Nat
  type : Nat
  code : Nat
  codeClass : Nat
  codeDetail : Nat
  messageId : Nat
  token : List Nat
  options : List (Nat × List Nat)
  payload : Option (List Nat)
  deriving Repr, DecidableEq

/-- `CoAPClient.parseMessage`.  `payload` is `none` exactly when no 0xFF
marker byte is found where an option header would start (the JS value
`null`), and `some` of everything after the marker otherwise. -/
def parseMessage (bytes : List Nat) : ParsedCoap :=
  let byte0 := bytes.getD 0 0
  let code := bytes.getD 1 0
  let tokenLength := byte0 &&& 15
  let token := if 0 < tokenLength then (bytes.drop 4).take tokenLength else []
  let pr := parseOptionsGo (bytes.drop (4 + tokenLength)).length 0 (bytes.drop (4 + tokenLength))
  { version := (byte0 >>> 6) &&& 3
    type := (byte0 >>> 4) &&& 3
    code := code
    codeClass := (code >>> 5) &&& 7
    codeDetail := code &&& 31
    messageId := ((bytes.getD 2 0) <<< 8) ||| bytes.getD 3 0
    token := token
    options := pr.1
    payload :=
      match pr.2 with
      | 0xFF :: p => some p
      | _ => none }

/-- Claim C7: the spec demands that an input ending exactly at the 0xFF
payload marker be flagged as invalid.  `parseMessage` has no invalid flag
or error channel at all; on the 5-byte message header followed by a bare
0xFF it silently returns the empty (non-null) payload. -/
theorem c7_bare_marker_silently_accepted :
    parseMessage [0x40, 0x01, 0x00, 0x01, 0xFF] =
      { version := 1, type := 0, code := 1, codeClass := 0, codeDetail := 1,
        messageId := 1, token := [], options := [], payload := some [] } :=
  rfl

/-- Claim C8: `encodeOptions` sorts the options ascending by option number
before delta encoding (out-of-order input is sorted, not rejected), and
encoding the options 15 ↦ "b", 11 ↦ "a" places the URI-Path(11) option
before URI-Query(15) on the wire regardless of presentation order:
the bytes are B1 61 41 62 (header delta 11/length 1, 'a', header delta
4/length 1, 'b'). -/
theorem c8_options_sorted_before_encoding
    (n1 n2 : Nat) (v1 v2 : OptValue) (h : n1 < n2) :
    encodeOptions [(n2, v2), (n1, v1)] = encodeOptions [(n1, v1), (n2, v2)] ∧
    encodeOptions [(15, OptValue.str [0x62]), (11, OptValue.str [0x61])] =
      [0xB1, 0x61, 0x41, 0x62] := by
  refine ⟨?_, rfl⟩
  unfold encodeOptions
  have h1 : ¬((n2, v2).1 ≤ (n1, v1).1) := by simpa using Nat.not_le.2 h
  have h2 : ((n1, v1).1 ≤ (n2, v2).1) := by simpa using Nat.le_of_lt h
  simp [List.insertionSort, List.orderedInsert, h1, h2]

/-- Witness for C8 at the concrete pair 11 < 15. -/
theorem c8_options_sorted_witness :
    encodeOptions [(15, OptValue.raw [9]), (11, OptValue.raw [8])] =
      encodeOptions [(11, OptValue.raw [8]), (15, OptValue.raw [9])] ∧
    encodeOptions [(15, OptValue.str [0x62]), (11, OptValue.str [0x61])] =
      [0xB1, 0x61, 0x41, 0x62] :=
  c8_options_sorted_before_encoding 11 15 (OptValue.raw [8]) (OptValue.raw [9])
    (by decide)

/-! ### CoAP round-trip (claim C2) -/

/-- A valid option list starting above `last`: numbers ascending from
`last` and below 2^16 (CoAP option numbers are 16-bit). -/
def optsChain (last : Nat) : List (Nat × OptValue) → Prop
  | [] => True
  | (n, _) :: rest => last ≤ n ∧ n < 65536 ∧ optsChain n rest

instance optsChainDecidable :
    ∀ (last : Nat) (l : List (Nat × OptValue)), Decidable (optsChain last l)
  | _, [] => isTrue trivial
  | last, (n, _) :: rest =>
    have : Decidable (optsChain n rest) := optsChainDecidable n rest
    inferInstanceAs (Decidable (last ≤ n ∧ n < 65536 ∧ optsChain n rest))

theorem optsChain_le {last : Nat} {l : List (Nat × OptValue)}
    (h : optsChain last l) : ∀ o ∈ l, last ≤ o.1 := by
  induction l generalizing last with
  | nil => intro o ho; cases ho
  | cons a rest ih =>
    obtain ⟨n, v⟩ := a
    obtain ⟨h1, _, h3⟩ := h
    intro o ho
    cases ho with
    | head => exact h1
    | tail _ ho => exact Nat.le_trans h1 (ih h3 o ho)

theorem optsChain_sorted {last : Nat} {l : List (Nat × OptValue)}
    (h : optsChain last l) :
    List.Sorted (fun a b : Nat × OptValue => a.1 ≤ b.1) l := by
  induction l generalizing last with
  | nil => exact List.sorted_nil
  | cons a rest ih =>
    obtain ⟨n, v⟩ := a
    obtain ⟨_, _, h3⟩ := h
    exact List.sorted_cons.2 ⟨optsChain_le h3, ih h3⟩

theorem encodeOptHeader_ne_nil (delta len : Nat) :
    encodeOptHeader delta len ≠ [] := by
  unfold encodeOptHeader
  by_cases h1 : delta < 13 ∧ len < 13
  · simp [h1]
  · simp only [h1, if_false]
    by_cases h2 : delta < 13
    · by_cases h3 : len < 13
      · exact absurd ⟨h2, h3⟩ h1
      · by_cases h4 : len < 269 <;> simp [h2, h3, h4]
    · by_cases h4 : delta < 269 <;> simp [h2, h4]

/-- Parsing one encoded option from the front of the buffer recovers its
number and value bytes and hands the rest to the continuation. -/
theorem parseOptionsGo_cons (fuel last delta L : Nat) (vb tl : List Nat)
    (hd : delta < 65805) (hL : L < 65805) (hvb : vb.length = L) :
    parseOptionsGo (fuel + 1) last (encodeOptHeader delta L ++ (vb ++ tl)) =
      ((last + delta, vb) :: (parseOptionsGo fuel (last + delta) tl).1,
       (parseOptionsGo fuel (last + delta) tl).2) := by
  have htake : (vb ++ tl).take L = vb := List.take_left' hvb
  have hdrop : (vb ++ tl).drop L = tl := List.drop_left' hvb
  rcases Nat.lt_or_ge delta 13 with hd13 | hd13
  · rcases Nat.lt_or_ge L 13 with hl13 | hl13
    · -- one-byte header
      have hdr : encodeOptHeader delta L = [(delta <<< 4) ||| L] := by
        simp [encodeOptHeader, hd13, hl13]
      have hb : (delta <<< 4) ||| L = 16 * delta + L := lor_shl4 _ _ (by omega)
      have h255 : ¬(16 * delta + L = 255) := by omega
      have hd0 : (16 * delta + L) >>> 4 &&& 15 = delta := by
        rw [shr4_eq, and_15_eq]; omega
      have hl0 : (16 * delta + L) &&& 15 = L := by rw [and_15_eq]; omega
      rw [hdr]
      simp [parseOptionsGo, readExt, hb, h255, hd0, hl0,
        show ¬(delta = 15) by omega, show ¬(delta = 13) by omega,
        show ¬(delta = 14) by omega, show ¬(L = 15) by omega,
        show ¬(L = 13) by omega, show ¬(L = 14) by omega, htake, hdrop]
    · rcases Nat.lt_or_ge L 269 with hl269 | hl269
      · -- delta nibble literal, length nibble 13
        have hdr : encodeOptHeader delta L = [(delta <<< 4) ||| 13, L - 13] := by
          simp [encodeOptHeader, hd13, hl269,
            show ¬(delta < 13 ∧ L < 13) by omega, show ¬(L < 13) by omega]
        have hb : (delta <<< 4) ||| 13 = 16 * delta + 13 := lor_shl4 _ _ (by omega)
        have h255 : ¬(16 * delta + 13 = 255) := by omega
        have hd0 : (16 * delta + 13) >>> 4 &&& 15 = delta := by
          rw [shr4_eq, and_15_eq]; omega
        have hl0 : (16 * delta + 13) &&& 15 = 13 := by rw [and_15_eq]; omega
        have hrecL : 13 + (L - 13) = L := by omega
        rw [hdr]
        simp [parseOptionsGo, readExt, hb, h255, hd0, hl0,
          show ¬(delta = 15) by omega, show ¬(delta = 13) by omega,
          show ¬(delta = 14) by omega, hrecL, htake, hdrop]
      · -- delta nibble literal, length nibble 14
        have hdr : encodeOptHeader delta L =
            [(delta <<< 4) ||| 14, (L - 269) >>> 8, (L - 269) &&& 255] := by
          simp [encodeOptHeader, hd13, show ¬(L < 13) by omega,
            show ¬(L < 269) by omega, show ¬(delta < 13 ∧ L < 13) by omega]
        have hb : (delta <<< 4) ||| 14 = 16 * delta + 14 := lor_shl4 _ _ (by omega)
        have h255 : ¬(16 * delta + 14 = 255) := by omega
        have hd0 : (16 * delta + 14) >>> 4 &&& 15 = delta := by
          rw [shr4_eq, and_15_eq]; omega
        have hl0 : (16 * delta + 14) &&& 15 = 14 := by rw [and_15_eq]; omega
        have hrecL : 269 + ((L - 269) >>> 8) <<< 8 + ((L - 269) &&& 255) = L := by
          rw [shr8_eq, shl8_eq, and_255_eq]; omega
        rw [hdr]
        simp [parseOptionsGo, readExt, hb, h255, hd0, hl0,
          show ¬(delta = 15) by omega, show ¬(delta = 13) by omega,
          show ¬(delta = 14) by omega, hrecL, htake, hdrop]
  · have hdelta13 : 13 + (delta - 13) = delta := by omega
    have hcond : ¬(delta < 13 ∧ L < 13) := by omega
    have hnd13 : ¬(delta < 13) := by omega
    rcases Nat.lt_or_ge delta 269 with hd269 | hd269
    · -- delta nibble 13
      rcases Nat.lt_or_ge L 13 with hl13 | hl13
      · have hdr : encodeOptHeader delta L = [(13 <<< 4) ||| L, delta - 13] := by
          simp [encodeOptHeader, hcond, hnd13, hd269, hl13,
            show ¬(269 ≤ L) by omega, show ¬(13 ≤ L) by omega]
        have hb : (208 : Nat) ||| L = 208 + L := by
          simpa using lor_shl4 13 L (show L < 16 by omega)
        have h255 : ¬(208 + L = 255) := by omega
        have hd0 : (208 + L) >>> 4 &&& 15 = 13 := by rw [shr4_eq, and_15_eq]; omega
        have hl0 : (208 + L) &&& 15 = L := by rw [and_15_eq]; omega
        rw [hdr]
        simp [parseOptionsGo, readExt, hb, h255, hd0, hl0, hdelta13,
          show ¬(L = 15) by omega, show ¬(L = 13) by omega,
          show ¬(L = 14) by omega, htake, hdrop]
      · rcases Nat.lt_or_ge L 269 with hl269 | hl269
        · have hdr : encodeOptHeader delta L =
              [(13 <<< 4) ||| 13, delta - 13, L - 13] := by
            simp [encodeOptHeader, hcond, hnd13, hd269, show ¬(L < 13) by omega,
              hl269, show ¬(269 ≤ L) by omega, show (13 ≤ L) by omega]
          have hrecL : 13 + (L - 13) = L := by omega
          rw [hdr]
          simp [parseOptionsGo, readExt, hdelta13, hrecL, htake, hdrop,
            show (13 : Nat) &&& 15 = 13 by decide,
            show (221 : Nat) &&& 15 = 13 by decide]
        · have hdr : encodeOptHeader delta L =
              [(13 <<< 4) ||| 14, delta - 13, (L - 269) >>> 8, (L - 269) &&& 255] := by
            simp [encodeOptHeader, hcond, hnd13, hd269, show ¬(L < 13) by omega,
              show ¬(L < 269) by omega, show (269 ≤ L) by omega]
          have hrecL : 269 + ((L - 269) >>> 8) <<< 8 + ((L - 269) &&& 255) = L := by
            rw [shr8_eq, shl8_eq, and_255_eq]; omega
          rw [hdr]
          simp [parseOptionsGo, readExt, hdelta13, hrecL, htake, hdrop,
            show (13 : Nat) &&& 15 = 13 by decide,
            show (222 : Nat) &&& 15 = 14 by decide]
    · -- delta nibble 14
      have hrecD : 269 + ((delta - 269) >>> 8) <<< 8 + ((delta - 269) &&& 255) =
          delta := by
        rw [shr8_eq, shl8_eq, and_255_eq]; omega
      rcases Nat.lt_or_ge L 13 with hl13 | hl13
      · have hdr : encodeOptHeader delta L =
            [(14 <<< 4) ||| L, (delta - 269) >>> 8, (delta - 269) &&& 255] := by
          simp [encodeOptHeader, hcond, hnd13, show ¬(delta < 269) by omega, hl13,
            show ¬(269 ≤ L) by omega, show ¬(13 ≤ L) by omega]
        have hb : (224 : Nat) ||| L = 224 + L := by
          simpa using lor_shl4 14 L (show L < 16 by omega)
        have h255 : ¬(224 + L = 255) := by omega
        have hd0 : (224 + L) >>> 4 &&& 15 = 14 := by rw [shr4_eq, and_15_eq]; omega
        have hl0 : (224 + L) &&& 15 = L := by rw [and_15_eq]; omega
        rw [hdr]
        simp [parseOptionsGo, readExt, hb, h255, hd0, hl0, hrecD,
          show ¬(L = 15) by omega, show ¬(L = 13) by omega,
          show ¬(L = 14) by omega, htake, hdrop]
      · rcases Nat.lt_or_ge L 269 with hl269 | hl269
        · have hdr : encodeOptHeader delta L =
              [(14 <<< 4) ||| 13, (delta - 269) >>> 8, (delta - 269) &&& 255,
               L - 13] := by
            simp [encodeOptHeader, hcond, hnd13, show ¬(delta < 269) by omega,
              show ¬(L < 13) by omega, hl269, show ¬(269 ≤ L) by omega,
              show (13 ≤ L) by omega]
          have hrecL : 13 + (L - 13) = L := by omega
          rw [hdr]
          simp [parseOptionsGo, readExt, hrecD, hrecL, htake, hdrop,
            show (14 : Nat) &&& 15 = 14 by decide,
            show (237 : Nat) &&& 15 = 13 by decide]
        · have hdr : encodeOptHeader delta L =
              [(14 <<< 4) ||| 14, (delta - 269) >>> 8, (delta - 269) &&& 255,
               (L - 269) >>> 8, (L - 269) &&& 255] := by
            simp [encodeOptHeader, hcond, hnd13, show ¬(delta < 269) by omega,
              show ¬(L < 13) by omega, show ¬(L < 269) by omega,
              show (269 ≤ L) by omega]
          have hrecL : 269 + ((L - 269) >>> 8) <<< 8 + ((L - 269) &&& 255) = L := by
            rw [shr8_eq, shl8_eq, and_255_eq]; omega
          rw [hdr]
          simp [parseOptionsGo, readExt, hrecD, hrecL, htake, hdrop,
            show (14 : Nat) &&& 15 = 14 by decide,
            show (238 : Nat) &&& 15 = 14 by decide]

/-- Parsing the encoding of a chain-sorted option list (with any tail that
is either empty or starts with the 0xFF payload marker) recovers exactly
the option numbers and value bytes, leaving the tail untouched. -/
theorem parseOptionsGo_encode (opts : List (Nat × OptValue)) :
    ∀ (fuel last : Nat) (tail : List Nat),
      optsChain last opts →
      (∀ o ∈ opts, (optValueBytes o.2).length < 65805) →
      (tail = [] ∨ ∃ t, tail = 0xFF :: t) →
      (encodeOptionsGo last opts ++ tail).length ≤ fuel →
      parseOptionsGo fuel last (encodeOptionsGo last opts ++ tail) =
        (opts.map (fun o => (o.1, optValueBytes o.2)), tail) := by
  induction opts with
  | nil =>
    intro fuel last tail _ _ htail hfuel
    simp only [encodeOptionsGo, List.nil_append, List.map_nil] at *
    rcases htail with rfl | ⟨t, rfl⟩
    · cases fuel <;> simp [parseOptionsGo]
    · cases fuel with
      | zero => simp at hfuel
      | succ f => simp [parseOptionsGo]
  | cons a rest ih =>
    intro fuel last tail hchain hlen htail hfuel
    obtain ⟨n, v⟩ := a
    obtain ⟨h1, h2, h3⟩ := hchain
    have hL : (optValueBytes v).length < 65805 := hlen (n, v) (List.mem_cons_self _ _)
    have hδ : n - last < 65805 := by omega
    have hne := encodeOptHeader_ne_nil (n - last) (optValueBytes v).length
    have hpos : 0 < (encodeOptHeader (n - last) (optValueBytes v).length).length :=
      List.length_pos.2 hne
    simp only [encodeOptionsGo] at hfuel ⊢
    cases fuel with
    | zero =>
      exfalso
      simp only [List.length_append] at hfuel
      omega
    | succ f =>
      rw [List.append_assoc, List.append_assoc]
      rw [parseOptionsGo_cons f last (n - last) (optValueBytes v).length
        (optValueBytes v) (encodeOptionsGo n rest ++ tail) hδ hL rfl]
      have hn : last + (n - last) = n := by omega
      rw [hn]
      have hbound : (encodeOptionsGo n rest ++ tail).length ≤ f := by
        simp only [List.length_append] at hfuel ⊢
        omega
      rw [ih f n tail h3 (fun o ho => hlen o (List.mem_cons_of_mem _ ho)) htail hbound]
      simp

theorem drop_four_cons {α : Type} (a b c d : α) (l : List α) (k : Nat) :
    (a :: b :: c :: d :: l).drop (4 + k) = l.drop k := by
  have h : 4 + k = k + 4 := by omega
  rw [h]
  rfl

theorem drop_lit_four_cons {α : Type} (a b c d : α) (l : List α) :
    (a :: b :: c :: d :: l).drop 4 = l := rfl

/-- Claim C2: CoAP round-trip.  For every valid message — type < 4, code a
byte, 16-bit message id, token of at most 8 bytes, options ascending by
option number (16-bit numbers, value lengths below the two-byte extended
bound 65805) — parsing the encoding returns the same version, type, code,
message id, token, options (numbers and value bytes, in order) and
payload. -/
theorem c2_coap_roundtrip (type code mid : Nat) (token : List Nat)
    (opts : List (Nat × OptValue)) (payload : Option (List Nat))
    (htype : type < 4) (hcode : code < 256) (hmid : mid < 65536)
    (htok : token.length ≤ 8) (hopts : optsChain 0 opts)
    (hlen : ∀ o ∈ opts, (optValueBytes o.2).length < 65805) :
    parseMessage (createMessage type code mid token opts payload) =
      { version := 1, type := type, code := code,
        codeClass := (code >>> 5) &&& 7, codeDetail := code &&& 31,
        messageId := mid, token := token,
        options := opts.map (fun o => (o.1, optValueBytes o.2)),
        payload := payload } := by
  have hsortid : List.insertionSort (fun a b : Nat × OptValue => a.1 ≤ b.1) opts =
      opts :=
    List.Sorted.insertionSort_eq (optsChain_sorted hopts)
  have e6 : (2 : Nat) ^ 6 = 64 := by norm_num
  have hb0 : (1 <<< 6 : Nat) ||| (type <<< 4) ||| token.length =
      64 + 16 * type + token.length := by
    have h1 : (1 <<< 6 : Nat) ||| (type <<< 4) = 64 + 16 * type := by
      rw [shl4_eq, lor_shl_eq_add 1 (16 * type) 6 (by rw [e6]; omega), e6]
    rw [h1, show 64 + 16 * type = 16 * (4 + type) by omega]
    have h3 := lor_shl4 (4 + type) token.length (by omega)
    rw [shl4_eq] at h3
    rw [h3]
  have hver : ((64 + 16 * type + token.length) >>> 6) &&& 3 = 1 := by
    rw [shr6_eq, and_3_eq]; omega
  have htyp : ((64 + 16 * type + token.length) >>> 4) &&& 3 = type := by
    rw [shr4_eq, and_3_eq]; omega
  have htl : (64 + 16 * type + token.length) &&& 15 = token.length := by
    rw [and_15_eq]; omega
  have hmsg : (((mid >>> 8) &&& 255) <<< 8) ||| (mid &&& 255) = mid := by
    have h := lor_shl8 ((mid >>> 8) &&& 255) (mid &&& 255)
      (by rw [and_255_eq]; omega)
    rw [h, shr8_eq, and_255_eq, and_255_eq]; omega
  have htoktake : ∀ Z : List Nat,
      (if 0 < token.length then (token ++ Z).take token.length else []) = token := by
    intro Z
    cases token with
    | nil => simp
    | cons t ts => simp [List.take_left]
  cases payload with
  | none =>
    have hper := parseOptionsGo_encode opts (encodeOptionsGo 0 opts).length 0 []
      hopts hlen (Or.inl rfl) (by simp)
    rw [List.append_nil] at hper
    simp only [createMessage, parseMessage, encodeOptions, hsortid,
      List.cons_append, List.nil_append, List.append_assoc, List.append_nil,
      List.getD_cons_zero, List.getD_cons_succ, hb0, hver, htyp, htl, hmsg]
    rw [drop_four_cons, List.drop_left, drop_lit_four_cons, htoktake, hper]
  | some p =>
    have hper := parseOptionsGo_encode opts
      (encodeOptionsGo 0 opts ++ (0xFF :: p)).length 0 (0xFF :: p)
      hopts hlen (Or.inr ⟨p, rfl⟩) (le_refl _)
    simp only [createMessage, parseMessage, encodeOptions, hsortid,
      List.cons_append, List.nil_append, List.append_assoc,
      List.getD_cons_zero, List.getD_cons_succ, hb0, hver, htyp, htl, hmsg]
    rw [drop_four_cons, List.drop_left, drop_lit_four_cons, htoktake, hper]

/-- Witness for C2: a concrete CON GET with message id 7, token 01 02 03
04, a URI-Path option and a Content-Format option, and a 2-byte payload. -/
theorem c2_coap_roundtrip_witness :
    parseMessage (createMessage 0 1 7 [1, 2, 3, 4]
        [(11, OptValue.str [97]), (12, OptValue.num 60)] (some [5, 6])) =
      { version := 1, type := 0, code := 1, codeClass := (1 >>> 5) &&& 7,
        codeDetail := 1 &&& 31, messageId := 7, token := [1, 2, 3, 4],
        options := [(11, OptValue.str [97]), (12, OptValue.num 60)].map
          (fun o => (o.1, optValueBytes o.2)),
        payload := some [5, 6] } :=
  c2_coap_roundtrip 0 1 7 [1, 2, 3, 4]
    [(11, OptValue.str [97]), (12, OptValue.num 60)] (some [5, 6])
    (by decide) (by decide) (by decide) (by decide) (by decide) (by decide)

/-! ## MUP1 framer, first variant (src/unnamed/part_001, first
`MUP1Protocol` class; `parseFrame` is byte-identical in
src/unnamed/part_000 except for the unescaping routine)

SOF = 0x3E '>', EOF = 0x3C '<', ESCAPE = 0x5C backslash. -/

/-- The 16-bit word list of `MUP1Protocol.calculateChecksum`: big-endian
pairs, an odd trailing byte as the high half of a zero-padded word.  Both
files' `calculateChecksum` bodies compute exactly this. -/
def words16 : List Nat → List Nat
  | [] => []
  | [a] => [a <<< 8]
  | a :: b :: rest => ((a <<< 8) ||| b) :: words16 rest

/-- The carry-folding loop `while (sum >> 16) sum = (sum & 0xFFFF) +
(sum >> 16)`.  The fuel is the starting sum itself: every iteration
strictly decreases the value while it is ≥ 2^16, so it never runs out. -/
def foldCarry : Nat → Nat → Nat
  | 0, s => s
  | fuel + 1, s => if s < 65536 then s else foldCarry fuel (s % 65536 + s / 65536)

/-- `MUP1Protocol.calculateChecksum` (both part_000 and part_001): 16-bit
word sum, carries folded, then the 16-bit one's complement
(`(~sum) & 0xFFFF` = `65535 - sum` for a folded sum below 2^16). -/
def mup1Checksum (data : List Nat) : Nat :=
  65535 - foldCarry (words16 data).sum (words16 data).sum

/-- `MUP1Protocol.escapeData` of part_001: prefix the three framing bytes
with the escape byte, pass everything else through. -/
def escapeData1 : List Nat → List Nat
  | [] => []
  | b :: rest =>
    (if b = 0x3E ∨ b = 0x3C ∨ b = 0x5C then [0x5C, b] else [b]) ++ escapeData1 rest

/-- `MUP1Protocol.unescapeData` of part_001: an escape byte that is not
the last byte is skipped and the following byte emitted verbatim. -/
def unescapeData1 : List Nat → List Nat
  | [] => []
  | [b] => [b]
  | a :: b :: rest =>
    if a = 0x5C then b :: unescapeData1 rest else a :: unescapeData1 (b :: rest)

/-- `MUP1Protocol.escapeData` of part_000: the substitution variant, which
additionally maps 0x00 to `5C 30` and 0xFF to `5C 46`. -/
def escapeData0 : List Nat → List Nat
  | [] => []
  | b :: rest =>
    (if b = 0x00 then [0x5C, 0x30]
     else if b = 0xFF then [0x5C, 0x46]
     else if b = 0x3E then [0x5C, 0x3E]
     else if b = 0x3C then [0x5C, 0x3C]
     else if b = 0x5C then [0x5C, 0x5C]
     else [b]) ++ escapeData0 rest

/-- `MUP1Protocol.unescapeData` of part_000. -/
def unescapeData0 : List Nat → List Nat
  | [] => []
  | [b] => [b]
  | a :: b :: rest =>
    if a = 0x5C then
      (if b = 0x30 then 0x00 else if b = 0x46 then 0xFF else b) :: unescapeData0 rest
    else a :: unescapeData0 (b :: rest)

/-- One lowercase hex digit of `Number.prototype.toString(16)`. -/
def hexDigit (d : Nat) : Nat := if d < 10 then 48 + d else 87 + d

/-- `checksum.toString(16).padStart(4, '0')` as ASCII bytes, for a
16-bit checksum value. -/
def toHex4 (n : Nat) : List Nat :=
  [hexDigit (n / 4096 % 16), hexDigit (n / 256 % 16), hexDigit (n / 16 % 16),
   hexDigit (n % 16)]

/-- One character's value for JS `parseInt(_, 16)`. -/
def hexVal (c : Nat) : Option Nat :=
  if 48 ≤ c ∧ c ≤ 57 then some (c - 48)
  else if 97 ≤ c ∧ c ≤ 102 then some (c - 97 + 10)
  else if 65 ≤ c ∧ c ≤ 70 then some (c - 65 + 10)
  else none

def parseHexAux : List Nat → Nat → Nat
  | [], acc => acc
  | c :: rest, acc =>
    match hexVal c with
    | some d => parseHexAux rest (16 * acc + d)
    | none => acc

/-- JS `parseInt(str, 16)`: `none` (NaN) when the first character is not a
hex digit, otherwise the value of the maximal leading hex-digit run. -/
def jsParseIntHex : List Nat → Option Nat
  | [] => none
  | c :: rest =>
    match hexVal c with
    | some d => some (parseHexAux rest d)
    | none => none

/-- The pre-checksum wire bytes built by part_001's
`MUP1Protocol.createFrame`: SOF, type byte, escaped data, EOF, and a
second EOF when `(frame.length + 4)` is even at that point. -/
def frameCore1 (type : Nat) (data : List Nat) : List Nat :=
  let pre := 0x3E :: type :: (if 0 < data.length then escapeData1 data else [])
  let withEof := pre ++ [0x3C]
  if (withEof.length + 4) % 2 = 0 then withEof ++ [0x3C] else withEof

/-- part_001 `MUP1Protocol.createFrame`: the core bytes followed by the
4-digit lowercase ASCII hex of their checksum. -/
def mup1CreateFrame (type : Nat) (data : List Nat) : List Nat :=
  frameCore1 type data ++ toHex4 (mup1Checksum (frameCore1 type data))

/-- part_000 `MUP1Protocol.createFrame`: the checksum is computed over the
UNESCAPED bytes `SOF type data EOF [EOF]` with the second EOF added when
the data length is even, while the wire frame carries the
substitution-escaped data. -/
def mup1CreateFrame0 (type : Nat) (data : List Nat) : List Nat :=
  let checksumData := 0x3E :: type :: data ++ [0x3C] ++
    (if data.length % 2 = 0 then [0x3C] else [])
  let ck := mup1Checksum checksumData
  (0x3E :: type :: (if 0 < data.length then escapeData0 data else []) ++ [0x3C] ++
    (if data.length % 2 = 0 then [0x3C] else [])) ++ toHex4 ck

/-- The SOF scan of `parseFrame`. -/
def findSofAux : List Nat → Nat → Option Nat
  | [], _ => none
  | b :: rest, i => if b = 0x3E then some i else findSofAux rest (i + 1)

/-- The EOF scan of `parseFrame`: first byte equal to EOF whose
predecessor is not the escape byte; extends by one position when the
next byte is also EOF (the double-EOF check). `prev` carries `data[i-1]`. -/
def findEofAux : Nat → List Nat → Nat → Option Nat
  | _, [], _ => none
  | prev, b :: rest, i =>
    if b = 0x3C ∧ prev ≠ 0x5C then
      match rest with
      | b2 :: _ => if b2 = 0x3C then some (i + 1) else some i
      | [] => some i
    else findEofAux b rest (i + 1)

/-- The trailing-EOF strip loop of `parseFrame` (`while last === EOF pop`). -/
def stripTrailingEof (l : List Nat) : List Nat :=
  (l.reverse.dropWhile (fun b => b == 0x3C)).reverse

/-- The frame object returned by `parseFrame`: `checksum` is the received
checksum (`none` for a NaN `parseInt`), `checksumValid` the strict
equality of computed and received. -/
structure MFrame where
  type : Nat
  data : List Nat
  checksum : Option Nat
  checksumValid : Bool
  deriving Repr, DecidableEq

/-- part_001 `MUP1Protocol.parseFrame`. -/
def mup1ParseFrame (data : List Nat) : Except String MFrame :=
  match findSofAux data 0 with
  | none => .error "No start of frame found"
  | some s =>
    match findEofAux (data.getD s 0) (data.drop (s + 1)) (s + 1) with
    | none => .error "No end of frame found"
    | some e =>
      if e + 1 + 4 > data.length then .error "Incomplete checksum"
      else
        let received := jsParseIntHex ((data.drop (e + 1)).take 4)
        let frameData := (data.drop s).take (e + 1 - s)
        let calculated := mup1Checksum frameData
        let payload :=
          if e > s + 2 then
            let escaped := (data.drop (s + 2)).take (e - (s + 2))
            let stripped := stripTrailingEof escaped
            if 0 < stripped.length then unescapeData1 stripped else []
          else []
        .ok { type := data.getD (s + 1) 0
              data := payload
              checksum := received
              checksumValid :=
                match received with
                | some r => decide (calculated = r)
                | none => false }

/-! ## MUP1, second variant (src/unnamed/part_001, second `MUP1Protocol`
class): `packFrame`, `processData`, `extractFrames` -/

/-- The second class's `calculateChecksum`: plain 16-bit byte sum. -/
def mup1SumChecksum (data : List Nat) : Nat :=
  data.foldl (fun s b => (s + b) &&& 65535) 0

/-- `MUP1Protocol.packFrame` of the second class, with the mutable
`this.messageId` passed explicitly.  The checksum placeholder bytes at
offsets 6-7 are overwritten with the payload checksum before returning. -/
def packFrame2 (messageId : Nat) (payload : List Nat) : List Nat :=
  let ck := mup1SumChecksum payload
  [0x40, 0x05, (messageId >>> 8) &&& 255, messageId &&& 255, 0xB1, 0x63,
   (ck >>> 8) &&& 255, ck &&& 255, 0x33, 0x64, 0x3D, 0x61, 0x21, 0x8E, 0xFF] ++
    payload

/-- `MUP1Protocol.unpackFrame`: everything after the first 0xFF that is
not the last byte; `none` otherwise. -/
def unpackFrame2 : List Nat → Option (List Nat)
  | a :: b :: rest => if a = 0xFF then some (b :: rest) else unpackFrame2 (b :: rest)
  | _ => none

/-- The scan loop of `MUP1Protocol.extractFrames`: looks for the byte pair
0x60 0x45, unpacks from there, and on success truncates the buffer by
`i + 32` ("approximate frame length") and stops.  `k` counts the
remaining loop iterations (`length - 1` at the start). -/
def extractAux (full : List Nat) : Nat → Nat → List (List Nat) × List Nat
  | 0, _ => ([], full)
  | k + 1, i =>
    if full.getD i 0 = 0x60 ∧ full.getD (i + 1) 0 = 0x45 then
      match unpackFrame2 (full.drop i) with
      | some p => ([p], full.drop (i + 32))
      | none => extractAux full k (i + 1)
    else extractAux full k (i + 1)

/-- `MUP1Protocol.extractFrames`, returning the extracted frames and the
new `this.frameBuffer`. -/
def extractFrames2 (buf : List Nat) : List (List Nat) × List Nat :=
  extractAux buf (buf.length - 1) 0

/-- `MUP1Protocol.processData`: append the chunk to the frame buffer, then
extract. -/
def processData2 (buf chunk : List Nat) : List (List Nat) × List Nat :=
  extractFrames2 (buf ++ chunk)

/-- Feeding a sequence of chunks through `processData` calls on one
instance, collecting all extracted frames (the buffer starts empty). -/
def mup1Feed2 (chunks : List (List Nat)) : List (List Nat) × List Nat :=
  chunks.foldl (fun acc c =>
    let r := processData2 acc.2 c
    (acc.1 ++ r.1, r.2)) ([], [])

/-! ### Escaping is left-invertible (claim C10) -/

theorem escape1_eq_nil {l : List Nat} (h : escapeData1 l = []) : l = [] := by
  cases l with
  | nil => rfl
  | cons b rest =>
    exfalso
    by_cases hb : b = 0x3E ∨ b = 0x3C ∨ b = 0x5C <;> simp [escapeData1, hb] at h

theorem unescape1_escape1 (d : List Nat) : unescapeData1 (escapeData1 d) = d := by
  induction d with
  | nil => rfl
  | cons b rest ih =>
    by_cases hb : b = 0x3E ∨ b = 0x3C ∨ b = 0x5C
    · simp only [escapeData1, if_pos hb, List.cons_append, List.nil_append]
      simp [unescapeData1, ih]
    · simp only [escapeData1, if_neg hb, List.cons_append, List.nil_append]
      have hbne : b ≠ 0x5C := fun h => hb (Or.inr (Or.inr h))
      cases hrest : escapeData1 rest with
      | nil =>
        have : rest = [] := escape1_eq_nil hrest
        subst this
        rfl
      | cons x xs =>
        simp only [unescapeData1, if_neg hbne]
        rw [← hrest, ih]

theorem escape0_eq_nil {l : List Nat} (h : escapeData0 l = []) : l = [] := by
  cases l with
  | nil => rfl
  | cons b rest =>
    exfalso
    by_cases h0 : b = 0x00 <;> by_cases hF : b = 0xFF <;>
      by_cases h1 : b = 0x3E <;> by_cases h2 : b = 0x3C <;>
      by_cases h3 : b = 0x5C <;> simp [escapeData0, h0, hF, h1, h2, h3] at h

theorem unescape0_escape0 (d : List Nat) : unescapeData0 (escapeData0 d) = d := by
  induction d with
  | nil => rfl
  | cons b rest ih =>
    by_cases h0 : b = 0x00
    · subst h0; simp [escapeData0, unescapeData0, ih]
    · by_cases hF : b = 0xFF
      · subst hF; simp [escapeData0, unescapeData0, h0, ih]
      · by_cases h1 : b = 0x3E
        · subst h1; simp [escapeData0, unescapeData0, h0, hF, ih]
        · by_cases h2 : b = 0x3C
          · subst h2; simp [escapeData0, unescapeData0, h0, hF, h1, ih]
          · by_cases h3 : b = 0x5C
            · subst h3; simp [escapeData0, unescapeData0, h0, hF, h1, h2, ih]
            · simp only [escapeData0, if_neg h0, if_neg hF, if_neg h1, if_neg h2,
                if_neg h3, List.cons_append, List.nil_append]
              cases hrest : escapeData0 rest with
              | nil =>
                have : rest = [] := escape0_eq_nil hrest
                subst this
                rfl
              | cons x xs =>
                simp only [unescapeData0, if_neg h3]
                rw [← hrest, ih]

/-- Claim C10: both escaping routines in the source are left-invertible:
part_001's prefix-escape scheme over the three framing bytes and
part_000's substitution scheme (which additionally rewrites 0x00 and 0xFF
to two-byte sequences) both satisfy `unescapeData(escapeData(d)) == d`
for every byte array `d`. -/
theorem c10_escaping_left_invertible (d : List Nat) :
    unescapeData1 (escapeData1 d) = d ∧ unescapeData0 (escapeData0 d) = d :=
  ⟨unescape1_escape1 d, unescape0_escape0 d⟩

/-- Claim C9: the ping frame.  part_000's `createFrame` implements the
spec's parity rule (second EOF when the payload length is even) and packs
`p` with empty payload as exactly the 8 ASCII bytes `>p<<8553` — the
checksum 0x8553 claimed by the spec and by the log comment in part_001
(`createPingMessage`).  But part_001's `createFrame` (the claim's cited
code) tests `(frame.length + 4) % 2 === 0` on the escaped frame instead,
emits a single EOF for the empty payload, and produces the 7 bytes
`>p<858f` (checksum 0x858F), contradicting the claim. -/
theorem c9_ping_frame_bytes :
    mup1CreateFrame 0x70 [] = [0x3E, 0x70, 0x3C, 0x38, 0x35, 0x38, 0x66] ∧
    mup1CreateFrame0 0x70 [] = [0x3E, 0x70, 0x3C, 0x3C, 0x38, 0x35, 0x35, 0x33] ∧
    mup1CreateFrame 0x70 [] ≠ [0x3E, 0x70, 0x3C, 0x3C, 0x38, 0x35, 0x35, 0x33] :=
  ⟨rfl, rfl, by decide⟩

/-- Claim C4: fragmentation invariance fails for the incremental feeder
(`processData`/`extractFrames` of part_001's second class).  For the
packed frame around payload `60 45 FF 01 02`, feeding the whole buffer
yields the single frame `[01, 02]`, but splitting the same bytes after the
19th byte and feeding the two chunks yields the different frame `[01]`:
the 32-byte "approximate frame length" truncation and the per-call rescan
are not reassembly-safe. -/
theorem c4_fragmentation_not_invariant :
    (packFrame2 1 [0x60, 0x45, 0xFF, 0x01, 0x02]).take 19 ++
        (packFrame2 1 [0x60, 0x45, 0xFF, 0x01, 0x02]).drop 19 =
      packFrame2 1 [0x60, 0x45, 0xFF, 0x01, 0x02] ∧
    mup1Feed2 [packFrame2 1 [0x60, 0x45, 0xFF, 0x01, 0x02]] = ([[0x01, 0x02]], []) ∧
    mup1Feed2 [(packFrame2 1 [0x60, 0x45, 0xFF, 0x01, 0x02]).take 19,
        (packFrame2 1 [0x60, 0x45, 0xFF, 0x01, 0x02]).drop 19] =
      ([[0x01]], [0x02]) ∧
    ([[0x01, 0x02]] : List (List Nat)) ≠ [[0x01]] :=
  ⟨rfl, rfl, rfl, by decide⟩

/-! ### MUP1 frame round-trip (claim C3) -/

theorem hexDigit_ne_eof (d : Nat) : hexDigit d ≠ 0x3C := by
  unfold hexDigit; split <;> omega

theorem hexVal_hexDigit : ∀ d, d < 16 → hexVal (hexDigit d) = some d := by decide

theorem jsParseIntHex_toHex4 (n : Nat) (h : n < 65536) :
    jsParseIntHex (toHex4 n) = some n := by
  have h1 := hexVal_hexDigit (n / 4096 % 16) (by omega)
  have h2 := hexVal_hexDigit (n / 256 % 16) (by omega)
  have h3 := hexVal_hexDigit (n / 16 % 16) (by omega)
  have h4 := hexVal_hexDigit (n % 16) (by omega)
  simp only [toHex4, jsParseIntHex, parseHexAux, h1, h2, h3, h4,
    Option.some.injEq]
  omega

theorem mup1Checksum_lt (data : List Nat) : mup1Checksum data < 65536 := by
  unfold mup1Checksum; omega

theorem escape1_ne_nil {l : List Nat} (h : l ≠ []) : escapeData1 l ≠ [] :=
  fun hh => h (escape1_eq_nil hh)

theorem escape1_getLast? (p : List Nat) (h : p ≠ []) :
    (escapeData1 p).getLast? = p.getLast? := by
  induction p with
  | nil => exact absurd rfl h
  | cons b rest ih =>
    by_cases hr : rest = []
    · subst hr
      by_cases hb : b = 0x3E ∨ b = 0x3C ∨ b = 0x5C <;> simp [escapeData1, hb]
    · obtain ⟨y, hy⟩ : ∃ y, rest.getLast? = some y := by
        cases hrest : rest.getLast? with
        | none => exact absurd (List.getLast?_eq_none_iff.1 hrest) hr
        | some y => exact ⟨y, rfl⟩
      have hEy : (escapeData1 rest).getLast? = some y := by rw [ih hr, hy]
      have hcons : ∀ (z : Nat) (l : List Nat),
          (z :: l).getLast? = l.getLast?.or (some z) := by
        intro z l
        rw [show z :: l = [z] ++ l from rfl, List.getLast?_append]
        rfl
      by_cases hb : b = 0x3E ∨ b = 0x3C ∨ b = 0x5C <;>
        simp [escapeData1, hb, List.getLast?_append, hEy, hcons, hy]

/-- Scanning for an unescaped EOF passes over an escaped payload without
firing: every EOF byte inside it is immediately preceded by the escape
byte. -/
theorem findEofAux_escape1 (p : List Nat) :
    ∀ (prev idx : Nat) (tail : List Nat),
      findEofAux prev (escapeData1 p ++ tail) idx =
        findEofAux (p.getLastD prev) tail (idx + (escapeData1 p).length) := by
  induction p with
  | nil => intro prev idx tail; simp [escapeData1]
  | cons b rest ih =>
    intro prev idx tail
    by_cases hb : b = 0x3E ∨ b = 0x3C ∨ b = 0x5C
    · simp only [escapeData1, if_pos hb, List.cons_append, List.nil_append]
      have h1 : ¬((0x5C : Nat) = 0x3C ∧ prev ≠ 0x5C) := by simp
      have h2 : ¬(b = 0x3C ∧ (0x5C : Nat) ≠ 0x5C) := by simp
      rw [show findEofAux prev (0x5C :: b :: (escapeData1 rest ++ tail)) idx =
            findEofAux 0x5C (b :: (escapeData1 rest ++ tail)) (idx + 1) by
          simp [findEofAux, h1]]
      rw [show findEofAux 0x5C (b :: (escapeData1 rest ++ tail)) (idx + 1) =
            findEofAux b (escapeData1 rest ++ tail) (idx + 1 + 1) by
          simp [findEofAux, h2]]
      rw [ih b (idx + 1 + 1) tail]
      rw [List.getLastD_cons]
      congr 1
      simp [escapeData1, hb]
      omega
    · simp only [escapeData1, if_neg hb, List.cons_append, List.nil_append]
      have hb3C : b ≠ 0x3C := fun h => hb (Or.inr (Or.inl h))
      have h1 : ¬(b = 0x3C ∧ prev ≠ 0x5C) := fun h => hb3C h.1
      rw [show findEofAux prev (b :: (escapeData1 rest ++ tail)) idx =
            findEofAux b (escapeData1 rest ++ tail) (idx + 1) by
          simp [findEofAux, h1]]
      rw [ih b (idx + 1) tail]
      rw [List.getLastD_cons]
      congr 1
      simp [escapeData1, hb]
      omega

theorem stripTrailingEof_append_eof (l : List Nat) :
    stripTrailingEof (l ++ [0x3C]) = stripTrailingEof l := by
  unfold stripTrailingEof
  rw [List.reverse_append]
  simp [List.dropWhile_cons]

theorem stripTrailingEof_of_getLast? (l : List Nat)
    (h : ∀ x ∈ l.getLast?, x ≠ 0x3C) : stripTrailingEof l = l := by
  unfold stripTrailingEof
  cases hl : l.reverse with
  | nil => simp [List.reverse_eq_nil_iff.1 hl]
  | cons x xs =>
    have hx : x ≠ 0x3C := by
      apply h
      rw [Option.mem_def, ← List.head?_reverse, hl]; rfl
    rw [List.dropWhile_cons]
    simp only [show (x == 0x3C) = false by simpa using hx, Bool.false_eq_true,
      if_false]
    rw [← hl, List.reverse_reverse]

theorem frameCore1_escape (p : List Nat) :
    (if 0 < p.length then escapeData1 p else []) = escapeData1 p := by
  cases p with
  | nil => rfl
  | cons b rest => simp

theorem frameCore1_odd (t : Nat) (p : List Nat)
    (h : (escapeData1 p).length % 2 = 1) :
    frameCore1 t p = 0x3E :: t :: (escapeData1 p ++ [0x3C, 0x3C]) := by
  unfold frameCore1
  rw [frameCore1_escape]
  dsimp only
  split
  · simp
  · next hcond =>
      exfalso
      simp [List.length_append] at hcond
      omega

theorem frameCore1_even (t : Nat) (p : List Nat)
    (h : (escapeData1 p).length % 2 = 0) :
    frameCore1 t p = 0x3E :: t :: (escapeData1 p ++ [0x3C]) := by
  unfold frameCore1
  rw [frameCore1_escape]
  dsimp only
  split
  · next hcond =>
      exfalso
      simp [List.length_append] at hcond
      omega
  · simp

/-- `parseFrame` in terms of the scan results: once the SOF index, the EOF
index and the length check are known, the result is a direct computation. -/
theorem mup1ParseFrame_eq (data : List Nat) (s e : Nat)
    (hsof : findSofAux data 0 = some s)
    (heof : findEofAux (data.getD s 0) (data.drop (s + 1)) (s + 1) = some e)
    (hfit : ¬(e + 1 + 4 > data.length)) :
    mup1ParseFrame data = .ok
      { type := data.getD (s + 1) 0
        data :=
          if e > s + 2 then
            if 0 < (stripTrailingEof ((data.drop (s + 2)).take (e - (s + 2)))).length
            then unescapeData1 (stripTrailingEof ((data.drop (s + 2)).take (e - (s + 2))))
            else []
          else []
        checksum := jsParseIntHex ((data.drop (e + 1)).take 4)
        checksumValid :=
          match jsParseIntHex ((data.drop (e + 1)).take 4) with
          | some r => decide (mup1Checksum ((data.drop s).take (e + 1 - s)) = r)
          | none => false } := by
  unfold mup1ParseFrame
  simp only [hsof, heof]
  rw [if_neg hfit]

/-- Claim C3, counterexample: packing the single EOF byte 0x3C as payload
and parsing it back yields the payload [0x5C], not [0x3C] (the trailing
strip loop pops the escaped data byte), with a valid checksum. -/
theorem c3_mup1_roundtrip_counterexample :
    mup1ParseFrame (mup1CreateFrame 0x63 [0x3C]) =
      .ok { type := 0x63, data := [0x5C], checksum := some 0x2960,
            checksumValid := true } ∧
    ([0x5C] : List Nat) ≠ [0x3C] :=
  ⟨rfl, by decide⟩

/-- Claim C3 as amended: the round-trip holds for every frame whose type
byte is neither EOF nor ESCAPE and whose payload does not end in the EOF
or ESCAPE byte: parsing the packed frame yields exactly one frame with the
packed type, the original payload and a valid checksum. -/
theorem c3_mup1_roundtrip_amended (t : Nat) (p : List Nat)
    (ht256 : t < 256) (hp256 : ∀ b ∈ p, b < 256)
    (ht3C : t ≠ 0x3C) (ht5C : t ≠ 0x5C)
    (hlast : ∀ x ∈ p.getLast?, x ≠ 0x3C ∧ x ≠ 0x5C) :
    mup1ParseFrame (mup1CreateFrame t p) =
      .ok { type := t, data := p,
            checksum := some (mup1Checksum (frameCore1 t p)),
            checksumValid := true } := by
  have hck := mup1Checksum_lt (frameCore1 t p)
  have hprev : p.getLastD t ≠ 0x5C := by
    rw [List.getLastD_eq_getLast?]
    cases hl : p.getLast? with
    | none => simpa using ht5C
    | some x =>
      have := (hlast x (by rw [Option.mem_def, hl])).2
      simpa using this
  rw [List.getLastD_eq_getLast?] at hprev
  rcases Nat.mod_two_eq_zero_or_one (escapeData1 p).length with hpar | hpar
  · -- even escaped length: single EOF
    rcases List.eq_nil_or_concat p with hpnil | ⟨q, y, hq⟩
    · -- empty payload
      subst hpnil
      have hdata : mup1CreateFrame t [] =
          0x3E :: t :: 0x3C :: toHex4 (mup1Checksum (frameCore1 t [])) := by
        rw [mup1CreateFrame, frameCore1_even t [] (by simp [escapeData1])]
        simp [escapeData1]
      rw [hdata]
      have hsof : findSofAux
          (0x3E :: t :: 0x3C :: toHex4 (mup1Checksum (frameCore1 t []))) 0 =
          some 0 := by
        simp [findSofAux]
      have heof : findEofAux 0x3E
          (t :: 0x3C :: toHex4 (mup1Checksum (frameCore1 t []))) 1 = some 2 := by
        rw [show findEofAux 0x3E
              (t :: 0x3C :: toHex4 (mup1Checksum (frameCore1 t []))) 1 =
              findEofAux t (0x3C :: toHex4 (mup1Checksum (frameCore1 t []))) 2 by
            simp [findEofAux, ht3C]]
        simp [findEofAux, ht5C, toHex4, hexDigit_ne_eof]
      have hfit : ¬(2 + 1 + 4 >
          (0x3E :: t :: 0x3C :: toHex4 (mup1Checksum (frameCore1 t []))).length) := by
        simp only [List.length_cons, toHex4, List.length_nil]
        omega
      rw [mup1ParseFrame_eq _ 0 2 hsof (by simpa using heof) hfit]
      have hcs : ((0x3E :: t :: 0x3C ::
            toHex4 (mup1Checksum (frameCore1 t []))).drop 0).take (2 + 1 - 0) =
          frameCore1 t [] := by
        rw [frameCore1_even t [] (by simp [escapeData1])]
        rfl
      rw [hcs]
      have hhex : ((0x3E :: t :: 0x3C ::
            toHex4 (mup1Checksum (frameCore1 t []))).drop (2 + 1)).take 4 =
          toHex4 (mup1Checksum (frameCore1 t [])) := rfl
      rw [hhex, jsParseIntHex_toHex4 _ hck]
      simp
    · -- nonempty payload (written as q ++ [y])
      have hpne : p ≠ [] := by subst hq; simp
      have hEne : escapeData1 p ≠ [] := escape1_ne_nil hpne
      have hL1 : 1 ≤ (escapeData1 p).length :=
        Nat.one_le_iff_ne_zero.2 (by simpa using hEne)
      have hElast : ∀ x ∈ (escapeData1 p).getLast?, x ≠ 0x3C := by
        rw [escape1_getLast? p hpne]
        intro x hx
        exact (hlast x hx).1
      have hcore := frameCore1_even t p hpar
      have hdata : mup1CreateFrame t p =
          0x3E :: t :: (escapeData1 p ++
            (0x3C :: toHex4 (mup1Checksum (frameCore1 t p)))) := by
        rw [mup1CreateFrame, hcore]
        simp
      rw [hdata]
      have hsof : findSofAux (0x3E :: t :: (escapeData1 p ++
          (0x3C :: toHex4 (mup1Checksum (frameCore1 t p))))) 0 = some 0 := by
        simp [findSofAux]
      have heof : findEofAux 0x3E (t :: (escapeData1 p ++
          (0x3C :: toHex4 (mup1Checksum (frameCore1 t p))))) 1 =
          some (2 + (escapeData1 p).length) := by
        rw [show findEofAux 0x3E (t :: (escapeData1 p ++
              (0x3C :: toHex4 (mup1Checksum (frameCore1 t p))))) 1 =
              findEofAux t (escapeData1 p ++
                (0x3C :: toHex4 (mup1Checksum (frameCore1 t p)))) 2 by
            simp [findEofAux, ht3C]]
        rw [findEofAux_escape1 p t 2
          (0x3C :: toHex4 (mup1Checksum (frameCore1 t p)))]
        simp [findEofAux, hprev, toHex4, hexDigit_ne_eof]
      have hlen : (0x3E :: t :: (escapeData1 p ++
          (0x3C :: toHex4 (mup1Checksum (frameCore1 t p))))).length =
          (escapeData1 p).length + 7 := by
        simp only [List.length_cons, List.length_append, toHex4]
        simp
      have hfit : ¬(2 + (escapeData1 p).length + 1 + 4 >
          (0x3E :: t :: (escapeData1 p ++
            (0x3C :: toHex4 (mup1Checksum (frameCore1 t p))))).length) := by
        rw [hlen]; omega
      rw [mup1ParseFrame_eq _ 0 (2 + (escapeData1 p).length) hsof
        (by simpa using heof) hfit]
      have hsplit : 0x3E :: t :: (escapeData1 p ++
          (0x3C :: toHex4 (mup1Checksum (frameCore1 t p)))) =
          (0x3E :: t :: (escapeData1 p ++ [0x3C])) ++
            toHex4 (mup1Checksum (frameCore1 t p)) := by
        simp
      have hhex : ((0x3E :: t :: (escapeData1 p ++
            (0x3C :: toHex4 (mup1Checksum (frameCore1 t p))))).drop
              (2 + (escapeData1 p).length + 1)).take 4 =
          toHex4 (mup1Checksum (frameCore1 t p)) := by
        rw [hsplit, List.drop_left' (by simp; omega)]
        rfl
      have hcs : ((0x3E :: t :: (escapeData1 p ++
            (0x3C :: toHex4 (mup1Checksum (frameCore1 t p))))).drop 0).take
              (2 + (escapeData1 p).length + 1 - 0) =
          frameCore1 t p := by
        rw [List.drop_zero, hsplit, List.take_left' (by simp; omega), hcore]
      have hesc : ((0x3E :: t :: (escapeData1 p ++
            (0x3C :: toHex4 (mup1Checksum (frameCore1 t p))))).drop (0 + 2)).take
              (2 + (escapeData1 p).length - (0 + 2)) =
          escapeData1 p := by
        rw [show (0 + 2 : Nat) = 2 from rfl]
        rw [show ((0x3E :: t :: (escapeData1 p ++
              (0x3C :: toHex4 (mup1Checksum (frameCore1 t p))))).drop 2) =
            escapeData1 p ++ (0x3C :: toHex4 (mup1Checksum (frameCore1 t p)))
          from rfl]
        rw [show 2 + (escapeData1 p).length - 2 = (escapeData1 p).length by omega]
        exact List.take_left' rfl
      rw [hhex, hcs, hesc, jsParseIntHex_toHex4 _ hck]
      rw [stripTrailingEof_of_getLast? _ hElast]
      rw [if_pos (by omega : 2 + (escapeData1 p).length > 0 + 2)]
      rw [if_pos (by omega : 0 < (escapeData1 p).length)]
      rw [unescape1_escape1]
      simp
  · -- odd escaped length: double EOF
    have hpne : p ≠ [] := by
      intro hp
      subst hp
      simp [escapeData1] at hpar
    have hEne : escapeData1 p ≠ [] := escape1_ne_nil hpne
    have hL1 : 1 ≤ (escapeData1 p).length :=
      Nat.one_le_iff_ne_zero.2 (by simpa using hEne)
    have hElast : ∀ x ∈ (escapeData1 p).getLast?, x ≠ 0x3C := by
      rw [escape1_getLast? p hpne]
      intro x hx
      exact (hlast x hx).1
    have hcore := frameCore1_odd t p hpar
    have hdata : mup1CreateFrame t p =
        0x3E :: t :: (escapeData1 p ++
          (0x3C :: 0x3C :: toHex4 (mup1Checksum (frameCore1 t p)))) := by
      rw [mup1CreateFrame, hcore]
      simp
    rw [hdata]
    have hsof : findSofAux (0x3E :: t :: (escapeData1 p ++
        (0x3C :: 0x3C :: toHex4 (mup1Checksum (frameCore1 t p))))) 0 = some 0 := by
      simp [findSofAux]
    have heof : findEofAux 0x3E (t :: (escapeData1 p ++
        (0x3C :: 0x3C :: toHex4 (mup1Checksum (frameCore1 t p))))) 1 =
        some (2 + (escapeData1 p).length + 1) := by
      rw [show findEofAux 0x3E (t :: (escapeData1 p ++
            (0x3C :: 0x3C :: toHex4 (mup1Checksum (frameCore1 t p))))) 1 =
            findEofAux t (escapeData1 p ++
              (0x3C :: 0x3C :: toHex4 (mup1Checksum (frameCore1 t p)))) 2 by
          simp [findEofAux, ht3C]]
      rw [findEofAux_escape1 p t 2
        (0x3C :: 0x3C :: toHex4 (mup1Checksum (frameCore1 t p)))]
      simp [findEofAux, hprev]
    have hlen : (0x3E :: t :: (escapeData1 p ++
        (0x3C :: 0x3C :: toHex4 (mup1Checksum (frameCore1 t p))))).length =
        (escapeData1 p).length + 8 := by
      simp only [List.length_cons, List.length_append, toHex4]
      simp
    have hfit : ¬(2 + (escapeData1 p).length + 1 + 1 + 4 >
        (0x3E :: t :: (escapeData1 p ++
          (0x3C :: 0x3C :: toHex4 (mup1Checksum (frameCore1 t p))))).length) := by
      rw [hlen]; omega
    rw [mup1ParseFrame_eq _ 0 (2 + (escapeData1 p).length + 1) hsof
      (by simpa using heof) hfit]
    have hsplit : 0x3E :: t :: (escapeData1 p ++
        (0x3C :: 0x3C :: toHex4 (mup1Checksum (frameCore1 t p)))) =
        (0x3E :: t :: (escapeData1 p ++ [0x3C, 0x3C])) ++
          toHex4 (mup1Checksum (frameCore1 t p)) := by
      simp
    have hhex : ((0x3E :: t :: (escapeData1 p ++
          (0x3C :: 0x3C :: toHex4 (mup1Checksum (frameCore1 t p))))).drop
            (2 + (escapeData1 p).length + 1 + 1)).take 4 =
        toHex4 (mup1Checksum (frameCore1 t p)) := by
      rw [hsplit, List.drop_left' (by simp; omega)]
      rfl
    have hcs : ((0x3E :: t :: (escapeData1 p ++
          (0x3C :: 0x3C :: toHex4 (mup1Checksum (frameCore1 t p))))).drop 0).take
            (2 + (escapeData1 p).length + 1 + 1 - 0) =
        frameCore1 t p := by
      rw [List.drop_zero, hsplit, List.take_left' (by simp; omega), hcore]
    have hesc : ((0x3E :: t :: (escapeData1 p ++
          (0x3C :: 0x3C :: toHex4 (mup1Checksum (frameCore1 t p))))).drop
            (0 + 2)).take (2 + (escapeData1 p).length + 1 - (0 + 2)) =
        escapeData1 p ++ [0x3C] := by
      rw [show (0 + 2 : Nat) = 2 from rfl]
      rw [show ((0x3E :: t :: (escapeData1 p ++
            (0x3C :: 0x3C :: toHex4 (mup1Checksum (frameCore1 t p))))).drop 2) =
          escapeData1 p ++ (0x3C :: 0x3C :: toHex4 (mup1Checksum (frameCore1 t p)))
        from rfl]
      rw [show 2 + (escapeData1 p).length + 1 - 2 = (escapeData1 p).length + 1
        by omega]
      rw [show escapeData1 p ++
            (0x3C :: 0x3C :: toHex4 (mup1Checksum (frameCore1 t p))) =
          (escapeData1 p ++ [0x3C]) ++
            (0x3C :: toHex4 (mup1Checksum (frameCore1 t p))) by simp]
      exact List.take_left' (by simp)
    rw [hhex, hcs, hesc, jsParseIntHex_toHex4 _ hck]
    rw [stripTrailingEof_append_eof, stripTrailingEof_of_getLast? _ hElast]
    rw [if_pos (by omega : 2 + (escapeData1 p).length + 1 > 0 + 2)]
    rw [if_pos (by omega : 0 < (escapeData1 p).length)]
    rw [unescape1_escape1]
    simp

/-- Witness for C3's amended round-trip at type 'c' (0x63) and payload
01 02. -/
theorem c3_mup1_roundtrip_witness :
    mup1ParseFrame (mup1CreateFrame 0x63 [0x01, 0x02]) =
      .ok { type := 0x63, data := [0x01, 0x02],
            checksum := some (mup1Checksum (frameCore1 0x63 [0x01, 0x02])),
            checksumValid := true } :=
  c3_mup1_roundtrip_amended 0x63 [0x01, 0x02] (by decide) (by decide)
    (by decide) (by decide) (by decide)

end VdWc
